import Mathlib

/-!
Shallow embedding of `src/iss_next_pass.py` (codingquark/iss-pass-check).

Time instants are modelled as rationals (seconds on the continuous UTC
timeline); durations are differences of instants, matching
`(settime - risetime).total_seconds()` in the source.  The skyfield
library calls used by the source — `satellite.find_events` (the Event
Detector), `is_sunlit` (illumination), and the sun-altitude observation —
are external collaborators of this repository, so they enter the
embedding as explicit functional parameters, exactly as the spec's §6
describes them.  Event kinds keep the source's integer codes:
0 = Rise, 1 = Culminate, 2 = Set.
-/

namespace IssNextPass

/-- Error kinds of the error model (spec §7). -/
inductive ErrKind where
  | malformedElements
  | ephemerisUnavailable
  | invalidLocation
deriving DecidableEq

/-- Modelled from the spec: the per-character value used by the TLE line
checksum (a digit counts its value, a minus sign counts 1, anything else
counts 0).  The actual parsing lives in skyfield's `EarthSatellite`
constructor, outside src/. -/
def tle_char_value (c : Char) : Nat :=
  if c.isDigit then c.toNat - 48 else if c = '-' then 1 else 0

/-- Modelled from the spec: a TLE line is structurally valid when it is 69
characters long and its final character carries the mod-10 checksum of the
first 68 characters (spec §6: "Malformed lines (wrong length, bad
checksum) must be rejected with a parse error"). -/
def tle_line_ok (l : List Char) : Bool :=
  decide (l.length = 69) &&
    decide ((l.take 68).foldl (fun a c => a + tle_char_value c) 0 % 10
      = tle_char_value (l.getLastD ' '))

/-- Embedding of the inner helper `is_visible` (src lines 83-93):
if the object is not illuminated, return `false`; otherwise return
whether the sun's apparent altitude is strictly below the twilight
threshold. -/
def is_visible (illuminated : ℚ → Bool) (sunAlt : ℚ → ℚ) (twilight_threshold : ℚ)
    (t : ℚ) : Bool :=
  if illuminated t = false then false
  else decide (sunAlt t < twilight_threshold)

/-- Embedding of the inner `for tj, eventj in zip(t, events)` loop
(src lines 108-112): the first event in list order whose time is strictly
after `ti` and whose kind is Set (code 2). -/
def findSetAfter (events : List (ℚ × ℕ)) (ti : ℚ) : Option ℚ :=
  match events with
  | [] => none
  | (tj, ej) :: rest =>
      if ti < tj ∧ ej = 2 then some tj else findSetAfter rest ti

/-- Embedding of the outer event loop of `next_visible_pass`
(src lines 98-113).  `all` is the full event list the inner loop scans;
`risetime` is the mutable `risetime` accumulator (`duration` is only ever
assigned immediately before the `return` on line 112, so at the fallthrough
return on line 113 it is still `None`). -/
def passSearch (vis : ℚ → Bool) (all : List (ℚ × ℕ)) :
    List (ℚ × ℕ) → Option ℚ → Option ℚ × Option ℚ
  | [], risetime => (risetime, none)
  | (ti, ev) :: rest, risetime =>
      if ev = 0 ∧ vis ti = true then
        match findSetAfter all ti with
        | some tj => (some ti, some (tj - ti))
        | none => passSearch vis all rest (some ti)
      else
        passSearch vis all rest risetime

/-- Embedding of `next_visible_pass`'s search over an already-computed
event list (src lines 96-113): returns the optional rise time and optional
duration in seconds. -/
def next_visible_pass (illuminated : ℚ → Bool) (sunAlt : ℚ → ℚ)
    (twilight_threshold : ℚ) (events : List (ℚ × ℕ)) : Option ℚ × Option ℚ :=
  passSearch (is_visible illuminated sunAlt twilight_threshold) events events none

/-- The source's search horizon: `timedelta(days=2)` (src line 76),
48 hours expressed in seconds. -/
def searchHorizonSeconds : ℚ := 172800

/-- Embedding of the whole `next_visible_pass` function (src lines 57-116)
including its fallible steps, in source order: TLE parsing by
`EarthSatellite` (line 73, modelled from the spec as the structural
check `tle_line_ok`), then the ephemeris load `load('de421.bsp')`
(line 78, abstracted as the flag `ephemerisOk`), then the event search.
`findEvents` abstracts `satellite.find_events(observer, t0, t1,
altitude_degrees=10.0)` as a function of latitude, longitude and the
window bounds; `sunAlt` abstracts the observer-dependent sun-altitude
observation.  `now` is `ts.now()` (line 75) made an explicit input, and
`t1 = now + searchHorizonSeconds` mirrors line 76.  The source performs
no latitude/longitude range validation, and neither does this model. -/
def next_visible_pass_full (lat lon : ℚ) (line1 line2 : List Char)
    (twilight_threshold now : ℚ) (ephemerisOk : Bool)
    (illuminated : ℚ → Bool) (sunAlt : ℚ → ℚ → ℚ → ℚ)
    (findEvents : ℚ → ℚ → ℚ → ℚ → List (ℚ × ℕ)) :
    Except ErrKind (Option ℚ × Option ℚ) :=
  if tle_line_ok line1 && tle_line_ok line2 then
    if ephemerisOk then
      Except.ok (next_visible_pass illuminated (sunAlt lat lon) twilight_threshold
        (findEvents lat lon now (now + searchHorizonSeconds)))
    else Except.error ErrKind.ephemerisUnavailable
  else Except.error ErrKind.malformedElements

/-- Embedding of `main`'s reporting condition `if risetime and duration:`
(src line 138): Python truthiness makes a `None` rise time, a `None`
duration, or a `0.0` duration all fall to the "No visible ISS pass found"
branch. -/
def reports_pass (res : Option ℚ × Option ℚ) : Bool :=
  match res with
  | (some _, some d) => decide (d ≠ 0)
  | _ => false

/-- The first event in list order that is a Rise (code 0) and satisfies
the visibility predicate; helper for stating what the outer loop selects. -/
def firstVisRise (vis : ℚ → Bool) : List (ℚ × ℕ) → Option ℚ
  | [] => none
  | (t, e) :: rest =>
      if e = 0 ∧ vis t = true then some t else firstVisRise vis rest

/-- The classic ISS two-line element set, used as a concrete well-formed
element input in witnesses. -/
def issLine1 : List Char :=
  "1 25544U 98067A   08264.51782528 -.00002182  00000-0 -11606-4 0  2927".data

/-- Second line of the concrete ISS two-line element set. -/
def issLine2 : List Char :=
  "2 25544  51.6416 247.4627 0006703 130.5360 325.0288 15.72125391563537".data

/-- Unfolding characterisation of the visibility predicate, shared by
several results below. -/
theorem is_visible_iff_aux (illuminated : ℚ → Bool) (sunAlt : ℚ → ℚ)
    (thr t : ℚ) :
    is_visible illuminated sunAlt thr t = true ↔
      (illuminated t = true ∧ sunAlt t < thr) := by
  unfold is_visible
  rcases h : illuminated t with _ | _ <;> simp [h]

/-- Raising the twilight threshold only enlarges the set of visible
instants. -/
theorem is_visible_mono (illuminated : ℚ → Bool) (sunAlt : ℚ → ℚ)
    (thr1 thr2 t : ℚ) (hle : thr1 ≤ thr2)
    (h : is_visible illuminated sunAlt thr1 t = true) :
    is_visible illuminated sunAlt thr2 t = true := by
  rw [is_visible_iff_aux] at h ⊢
  exact ⟨h.1, lt_of_lt_of_le h.2 hle⟩

/-- Whatever `findSetAfter` returns is a Set event of the list whose time
is strictly after the query time. -/
theorem findSetAfter_sound (all : List (ℚ × ℕ)) (ti s : ℚ)
    (h : findSetAfter all ti = some s) : (s, 2) ∈ all ∧ ti < s := by
  induction all with
  | nil => simp [findSetAfter] at h
  | cons hd tl ih =>
    obtain ⟨tj, ej⟩ := hd
    rw [findSetAfter] at h
    split at h
    · rename_i hc
      obtain ⟨h1, h2⟩ := hc
      cases h
      subst h2
      exact ⟨List.mem_cons_self _ _, h1⟩
    · obtain ⟨hm, hlt⟩ := ih h
      exact ⟨List.mem_cons_of_mem _ hm, hlt⟩

/-- If some Set event lies strictly after the query time, `findSetAfter`
returns a value. -/
theorem findSetAfter_isSome (all : List (ℚ × ℕ)) (ti s : ℚ)
    (hmem : (s, 2) ∈ all) (hlt : ti < s) :
    ∃ s2, findSetAfter all ti = some s2 := by
  induction all with
  | nil => simp at hmem
  | cons hd tl ih =>
    obtain ⟨tj, ej⟩ := hd
    rw [findSetAfter]
    split
    · exact ⟨tj, rfl⟩
    · rename_i hc
      rcases List.mem_cons.mp hmem with heq | hm
      · cases heq
        exact absurd ⟨hlt, rfl⟩ hc
      · exact ih hm

/-- On a strictly time-ordered list, `findSetAfter` returns exactly the
earliest Set event strictly after the query time. -/
theorem findSetAfter_min (all : List (ℚ × ℕ))
    (hsorted : List.Pairwise (fun a b => a.1 < b.1) all) (ti s : ℚ)
    (hmem : (s, 2) ∈ all) (hlt : ti < s)
    (hmin : ∀ p ∈ all, p.2 = 2 → ti < p.1 → s ≤ p.1) :
    findSetAfter all ti = some s := by
  induction all with
  | nil => simp at hmem
  | cons hd tl ih =>
    obtain ⟨tj, ej⟩ := hd
    rw [List.pairwise_cons] at hsorted
    obtain ⟨hlt_all, hsorted_tl⟩ := hsorted
    rw [findSetAfter]
    split
    · rename_i hc
      obtain ⟨h1, h2⟩ := hc
      have hs_le : s ≤ tj := hmin (tj, ej) (List.mem_cons_self _ _) h2 h1
      rcases List.mem_cons.mp hmem with heq | hm
      · cases heq
        rfl
      · exact ((not_lt.mpr hs_le) (hlt_all _ hm)).elim
    · rename_i hc
      rcases List.mem_cons.mp hmem with heq | hm
      · cases heq
        exact absurd ⟨hlt, rfl⟩ hc
      · exact ih hsorted_tl hm (fun p hp => hmin p (List.mem_cons_of_mem _ hp))

/-- When no Set event lies strictly after the query time, `findSetAfter`
returns nothing. -/
theorem findSetAfter_none (all : List (ℚ × ℕ)) (ti : ℚ)
    (h : ∀ p ∈ all, p.2 = 2 → ¬ ti < p.1) :
    findSetAfter all ti = none := by
  induction all with
  | nil => rfl
  | cons hd tl ih =>
    obtain ⟨tj, ej⟩ := hd
    rw [findSetAfter]
    split
    · rename_i hc
      exact absurd hc.1 (h (tj, ej) (List.mem_cons_self _ _) hc.2)
    · exact ih (fun p hp => h p (List.mem_cons_of_mem _ hp))

/-- If some visible Rise event is in the list, `firstVisRise` returns a
value. -/
theorem firstVisRise_isSome (vis : ℚ → Bool) (evs : List (ℚ × ℕ)) (r : ℚ)
    (hmem : (r, 0) ∈ evs) (hvis : vis r = true) :
    ∃ x, firstVisRise vis evs = some x := by
  induction evs with
  | nil => simp at hmem
  | cons hd tl ih =>
    obtain ⟨t, e⟩ := hd
    rw [firstVisRise]
    split
    · exact ⟨t, rfl⟩
    · rename_i hc
      rcases List.mem_cons.mp hmem with heq | hm
      · cases heq
        exact absurd ⟨rfl, hvis⟩ hc
      · exact ih hm

/-- On a strictly time-ordered list, the first visible Rise in list order
is earliest in time among all visible Rises. -/
theorem firstVisRise_le (vis : ℚ → Bool) (evs : List (ℚ × ℕ))
    (hsorted : List.Pairwise (fun a b => a.1 < b.1) evs) (x : ℚ)
    (h : firstVisRise vis evs = some x) :
    ∀ p ∈ evs, p.2 = 0 → vis p.1 = true → x ≤ p.1 := by
  induction evs with
  | nil => simp [firstVisRise] at h
  | cons hd tl ih =>
    obtain ⟨t, e⟩ := hd
    rw [List.pairwise_cons] at hsorted
    obtain ⟨hlt_all, hsorted_tl⟩ := hsorted
    rw [firstVisRise] at h
    intro p hp hp0 hpv
    rcases List.mem_cons.mp hp with heq | hm
    · subst heq
      split at h
      · cases h
        exact le_refl _
      · rename_i hc
        exact absurd ⟨hp0, hpv⟩ hc
    · split at h
      · cases h
        exact le_of_lt (hlt_all p hm)
      · exact ih hsorted_tl h p hm hp0 hpv

/-- On a strictly time-ordered list, the chronologically first visible
Rise is what `firstVisRise` returns. -/
theorem firstVisRise_min (vis : ℚ → Bool) (evs : List (ℚ × ℕ))
    (hsorted : List.Pairwise (fun a b => a.1 < b.1) evs) (r : ℚ)
    (hmem : (r, 0) ∈ evs) (hvis : vis r = true)
    (hmin : ∀ p ∈ evs, p.2 = 0 → vis p.1 = true → r ≤ p.1) :
    firstVisRise vis evs = some r := by
  induction evs with
  | nil => simp at hmem
  | cons hd tl ih =>
    obtain ⟨t, e⟩ := hd
    rw [List.pairwise_cons] at hsorted
    obtain ⟨hlt_all, hsorted_tl⟩ := hsorted
    rw [firstVisRise]
    split
    · rename_i hc
      have hr_le : r ≤ t := hmin (t, e) (List.mem_cons_self _ _) hc.1 hc.2
      rcases List.mem_cons.mp hmem with heq | hm
      · cases heq
        rfl
      · exact ((not_lt.mpr hr_le) (hlt_all _ hm)).elim
    · rename_i hc
      rcases List.mem_cons.mp hmem with heq | hm
      · cases heq
        exact absurd ⟨rfl, hvis⟩ hc
      · exact ih hsorted_tl hm (fun p hp => hmin p (List.mem_cons_of_mem _ hp))

/-- Any rise time carried out of the event loop — whether returned with a
duration or left in the accumulator — is either the incoming accumulator
or the time of a visible Rise event of the scanned list. -/
theorem passSearch_rise_sound (vis : ℚ → Bool) (all : List (ℚ × ℕ)) :
    ∀ (evs : List (ℚ × ℕ)) (acc : Option ℚ) (r : ℚ) (d : Option ℚ),
      passSearch vis all evs acc = (some r, d) →
      acc = some r ∨ ((r, 0) ∈ evs ∧ vis r = true) := by
  intro evs
  induction evs with
  | nil =>
    intro acc r d h
    simp only [passSearch, Prod.mk.injEq] at h
    exact Or.inl h.1
  | cons hd tl ih =>
    intro acc r d h
    obtain ⟨ti, ev⟩ := hd
    simp only [passSearch] at h
    by_cases hc : ev = 0 ∧ vis ti = true
    · rw [if_pos hc] at h
      rcases hfs : findSetAfter all ti with _ | tj
      · rw [hfs] at h
        rcases ih (some ti) r d h with hacc | ⟨hmem, hv⟩
        · right
          have he : ti = r := Option.some.inj hacc
          subst he
          exact ⟨by rw [hc.1]; exact List.mem_cons_self _ _, hc.2⟩
        · exact Or.inr ⟨List.mem_cons_of_mem _ hmem, hv⟩
      · rw [hfs] at h
        simp only [Prod.mk.injEq] at h
        right
        have he : ti = r := Option.some.inj h.1
        subst he
        exact ⟨by rw [hc.1]; exact List.mem_cons_self _ _, hc.2⟩
    · rw [if_neg hc] at h
      rcases ih acc r d h with hacc | ⟨hmem, hv⟩
      · exact Or.inl hacc
      · exact Or.inr ⟨List.mem_cons_of_mem _ hmem, hv⟩

/-- A duration is produced only by the `return` on src line 112: the
result then carries a visible Rise time `r` of the scanned list, the
inner scan found a Set time `s` strictly after `r`, and the duration is
`s - r`. -/
theorem passSearch_dur_sound (vis : ℚ → Bool) (all : List (ℚ × ℕ)) :
    ∀ (evs : List (ℚ × ℕ)) (acc rt : Option ℚ) (d : ℚ),
      passSearch vis all evs acc = (rt, some d) →
      ∃ r s, rt = some r ∧ (r, 0) ∈ evs ∧ vis r = true ∧
        findSetAfter all r = some s ∧ d = s - r := by
  intro evs
  induction evs with
  | nil =>
    intro acc rt d h
    simp only [passSearch, Prod.mk.injEq] at h
    exact absurd h.2 (by simp)
  | cons hd tl ih =>
    intro acc rt d h
    obtain ⟨ti, ev⟩ := hd
    simp only [passSearch] at h
    by_cases hc : ev = 0 ∧ vis ti = true
    · rw [if_pos hc] at h
      rcases hfs : findSetAfter all ti with _ | tj
      · rw [hfs] at h
        obtain ⟨r, s, h1, h2, h3, h4, h5⟩ := ih (some ti) rt d h
        exact ⟨r, s, h1, List.mem_cons_of_mem _ h2, h3, h4, h5⟩
      · rw [hfs] at h
        simp only [Prod.mk.injEq] at h
        refine ⟨ti, tj, h.1.symm, ?_, hc.2, hfs, (Option.some.inj h.2).symm⟩
        rw [hc.1]
        exact List.mem_cons_self _ _
    · rw [if_neg hc] at h
      obtain ⟨r, s, h1, h2, h3, h4, h5⟩ := ih acc rt d h
      exact ⟨r, s, h1, List.mem_cons_of_mem _ h2, h3, h4, h5⟩

/-- If no Rise event of the scanned list is visible, the loop falls
through with the accumulator unchanged and no duration. -/
theorem passSearch_no_vis (vis : ℚ → Bool) (all : List (ℚ × ℕ)) :
    ∀ (evs : List (ℚ × ℕ)) (acc : Option ℚ),
      (∀ p ∈ evs, p.2 = 0 → vis p.1 = false) →
      passSearch vis all evs acc = (acc, none) := by
  intro evs
  induction evs with
  | nil => intro acc hno; rfl
  | cons hd tl ih =>
    intro acc hno
    obtain ⟨ti, ev⟩ := hd
    simp only [passSearch]
    rw [if_neg]
    · exact ih acc (fun p hp => hno p (List.mem_cons_of_mem _ hp))
    · rintro ⟨h0, hv⟩
      have hf := hno (ti, ev) (List.mem_cons_self _ _) h0
      rw [hf] at hv
      exact Bool.noConfusion hv

/-- If the first visible Rise of the scanned list (in list order) has a
Set found by the inner scan, the loop returns exactly that pair. -/
theorem passSearch_first (vis : ℚ → Bool) (all : List (ℚ × ℕ)) :
    ∀ (evs : List (ℚ × ℕ)) (acc : Option ℚ) (r s : ℚ),
      firstVisRise vis evs = some r → findSetAfter all r = some s →
      passSearch vis all evs acc = (some r, some (s - r)) := by
  intro evs
  induction evs with
  | nil =>
    intro acc r s h1 h2
    simp [firstVisRise] at h1
  | cons hd tl ih =>
    intro acc r s h1 h2
    obtain ⟨ti, ev⟩ := hd
    rw [firstVisRise] at h1
    simp only [passSearch]
    split at h1
    · rename_i hc
      have he : ti = r := Option.some.inj h1
      subst he
      rw [if_pos hc, h2]
    · rename_i hc
      rw [if_neg hc]
      exact ih acc r s h1 h2

/-- If every visible Rise of the scanned list fails the inner Set scan,
and either a visible Rise exists or the accumulator is already set, the
loop falls through with some rise time and no duration. -/
theorem passSearch_trunc (vis : ℚ → Bool) (all : List (ℚ × ℕ)) :
    ∀ (evs : List (ℚ × ℕ)) (acc : Option ℚ),
      (∀ p ∈ evs, p.2 = 0 → vis p.1 = true → findSetAfter all p.1 = none) →
      ((∃ p ∈ evs, p.2 = 0 ∧ vis p.1 = true) ∨ (∃ a, acc = some a)) →
      ∃ x, passSearch vis all evs acc = (some x, none) := by
  intro evs
  induction evs with
  | nil =>
    intro acc hall hex
    rcases hex with ⟨p, hp, _⟩ | ⟨a, ha⟩
    · simp at hp
    · exact ⟨a, by rw [ha]; rfl⟩
  | cons hd tl ih =>
    intro acc hall hex
    obtain ⟨ti, ev⟩ := hd
    simp only [passSearch]
    by_cases hc : ev = 0 ∧ vis ti = true
    · rw [if_pos hc]
      have hfs : findSetAfter all ti = none :=
        hall (ti, ev) (List.mem_cons_self _ _) hc.1 hc.2
      rw [hfs]
      exact ih (some ti) (fun p hp => hall p (List.mem_cons_of_mem _ hp))
        (Or.inr ⟨ti, rfl⟩)
    · rw [if_neg hc]
      apply ih acc (fun p hp => hall p (List.mem_cons_of_mem _ hp))
      rcases hex with ⟨p, hp, hp2⟩ | ha
      · rcases List.mem_cons.mp hp with heq | hm
        · exfalso
          apply hc
          subst heq
          exact hp2
        · exact Or.inl ⟨p, hm, hp2⟩
      · exact Or.inr ha

/-- C5: the visibility predicate holds exactly when the object is
illuminated and the sun's apparent altitude is strictly below the twilight
threshold. -/
theorem C5_is_visible_iff (illuminated : ℚ → Bool) (sunAlt : ℚ → ℚ)
    (thr t : ℚ) :
    is_visible illuminated sunAlt thr t = true ↔
      (illuminated t = true ∧ sunAlt t < thr) := by
  unfold is_visible
  rcases h : illuminated t with _ | _ <;> simp [h]

/-- C1: over the strictly time-ordered event sequence of a search window,
`next_visible_pass` selects the chronologically first Rise event `r` at
which the visibility predicate is true as the pass start, pairs it with
the earliest Set event `s` whose time is strictly after `r`, and returns
duration `s - r` in seconds. -/
theorem C1_first_visible_rise_earliest_set (illuminated : ℚ → Bool)
    (sunAlt : ℚ → ℚ) (thr : ℚ) (evs : List (ℚ × ℕ)) (r s : ℚ)
    (hsorted : List.Pairwise (fun a b => a.1 < b.1) evs)
    (hrmem : (r, 0) ∈ evs)
    (hrvis : is_visible illuminated sunAlt thr r = true)
    (hrfirst : ∀ p ∈ evs, p.2 = 0 →
      is_visible illuminated sunAlt thr p.1 = true → r ≤ p.1)
    (hsmem : (s, 2) ∈ evs) (hrs : r < s)
    (hsfirst : ∀ p ∈ evs, p.2 = 2 → r < p.1 → s ≤ p.1) :
    next_visible_pass illuminated sunAlt thr evs = (some r, some (s - r)) := by
  unfold next_visible_pass
  exact passSearch_first _ evs evs none r s
    (firstVisRise_min _ evs hsorted r hrmem hrvis hrfirst)
    (findSetAfter_min evs hsorted r s hsmem hrs hsfirst)

/-- C1 witness: on a concrete ordered five-event window the pass returned
starts at the first visible Rise (t = 5) and ends at the earliest later
Set (t = 10), not the later Rise/Set pair. -/
theorem C1_witness :
    next_visible_pass (fun _ => true) (fun _ => -30) (-18)
      [(5, 0), (8, 1), (10, 2), (20, 0), (30, 2)] = (some 5, some (10 - 5)) := by
  apply C1_first_visible_rise_earliest_set
  · norm_num [List.pairwise_cons]
  · norm_num
  · norm_num [is_visible]
  · intro p hp
    fin_cases hp <;> norm_num [is_visible]
  · norm_num
  · norm_num
  · intro p hp
    fin_cases hp <;> norm_num

/-- C2: whenever the full computation returns a pass (rise time and
duration both present), the duration is strictly positive and the rise
time lies inside the 48-hour search window starting at `now`, provided
the Event Detector delivers its events inside that window (spec §4.2). -/
theorem C2_pass_in_window_positive_duration (lat lon : ℚ)
    (l1 l2 : List Char) (thr now : ℚ) (ephOk : Bool)
    (illuminated : ℚ → Bool) (sunAlt : ℚ → ℚ → ℚ → ℚ)
    (findEvents : ℚ → ℚ → ℚ → ℚ → List (ℚ × ℕ)) (r d : ℚ)
    (hwin : ∀ p ∈ findEvents lat lon now (now + searchHorizonSeconds),
      now ≤ p.1 ∧ p.1 < now + searchHorizonSeconds)
    (h : next_visible_pass_full lat lon l1 l2 thr now ephOk illuminated
        sunAlt findEvents = Except.ok (some r, some d)) :
    0 < d ∧ now ≤ r ∧ r < now + searchHorizonSeconds := by
  unfold next_visible_pass_full at h
  by_cases h1 : (tle_line_ok l1 && tle_line_ok l2) = true
  case neg =>
    rw [if_neg h1] at h
    exact Except.noConfusion h
  rw [if_pos h1] at h
  by_cases h2 : ephOk = true
  case neg =>
    rw [if_neg h2] at h
    exact Except.noConfusion h
  rw [if_pos h2] at h
  injection h with h3
  rw [next_visible_pass] at h3
  obtain ⟨r2, s, hrt, hmem, hvis, hfs, hd⟩ :=
    passSearch_dur_sound _ _ _ none (some r) d h3
  have hr : r = r2 := Option.some.inj hrt
  subst hr
  obtain ⟨hsm, hlts⟩ := findSetAfter_sound _ r s hfs
  refine ⟨?_, (hwin (r, 0) hmem).1, (hwin (r, 0) hmem).2⟩
  rw [hd]
  exact sub_pos.mpr hlts

/-- C2 witness: a concrete run returning the pass (rise 5, duration 5)
inside the window starting at 0. -/
theorem C2_witness :
    (0:ℚ) < 5 ∧ (0:ℚ) ≤ 5 ∧ (5:ℚ) < 0 + searchHorizonSeconds := by
  apply C2_pass_in_window_positive_duration 51 0 issLine1 issLine2 (-18) 0
    true (fun _ => true) (fun _ _ _ => -30) (fun _ _ _ _ => [(5, 0), (10, 2)]) 5 5
  · intro p hp
    fin_cases hp <;> norm_num [searchHorizonSeconds]
  · have h1 : tle_line_ok issLine1 = true := by decide
    have h2 : tle_line_ok issLine2 = true := by decide
    norm_num [next_visible_pass_full, h1, h2, next_visible_pass, passSearch,
      findSetAfter, is_visible]

/-- C3: with everything else fixed on a strictly time-ordered event
sequence, raising the twilight threshold (making it less negative) can
only move the returned pass to the same rise time or an earlier one. -/
theorem C3_twilight_threshold_monotone (illuminated : ℚ → Bool)
    (sunAlt : ℚ → ℚ) (thr1 thr2 : ℚ) (evs : List (ℚ × ℕ)) (r1 d1 : ℚ)
    (hsorted : List.Pairwise (fun a b => a.1 < b.1) evs)
    (hthr : thr1 ≤ thr2)
    (h1 : next_visible_pass illuminated sunAlt thr1 evs = (some r1, some d1)) :
    ∃ r2 d2, next_visible_pass illuminated sunAlt thr2 evs =
      (some r2, some d2) ∧ r2 ≤ r1 := by
  rw [next_visible_pass] at h1
  obtain ⟨r, s, hrt, hmem, hvis, hfs, hd⟩ :=
    passSearch_dur_sound _ evs evs none (some r1) d1 h1
  have hr : r1 = r := Option.some.inj hrt
  subst hr
  have hvis2 : is_visible illuminated sunAlt thr2 r1 = true :=
    is_visible_mono illuminated sunAlt thr1 thr2 r1 hthr hvis
  obtain ⟨x, hx⟩ := firstVisRise_isSome _ evs r1 hmem hvis2
  have hxle : x ≤ r1 := firstVisRise_le _ evs hsorted x hx (r1, 0) hmem rfl hvis2
  obtain ⟨hsm, hlts⟩ := findSetAfter_sound evs r1 s hfs
  obtain ⟨s2, hs2⟩ := findSetAfter_isSome evs x s hsm (lt_of_le_of_lt hxle hlts)
  refine ⟨x, s2 - x, ?_, hxle⟩
  rw [next_visible_pass]
  exact passSearch_first _ evs evs none x s2 hx hs2

/-- C3 witness: with the threshold raised from -18 to -10 the returned
pass still rises no later than the original rise at t = 5. -/
theorem C3_witness :
    ∃ r2 d2, next_visible_pass (fun _ => true) (fun _ => -30) (-10)
      [(5, 0), (10, 2)] = (some r2, some d2) ∧ r2 ≤ 5 := by
  apply C3_twilight_threshold_monotone (fun _ => true) (fun _ => -30)
    (-18) (-10) [(5, 0), (10, 2)] 5 5
  · norm_num [List.pairwise_cons]
  · norm_num
  · norm_num [next_visible_pass, passSearch, findSetAfter, is_visible]

/-- C4 counterexample: the claim "out-of-range locations are rejected
with InvalidLocationError before any propagation work begins" is false of
the source — with latitude 100 (outside [-90, 90]) and otherwise valid
inputs, the computation runs the event search to completion and returns a
pass; no InvalidLocationError is produced. -/
theorem C4_counterexample_no_location_check :
    (¬ ((100:ℚ) ≤ 90)) ∧
    next_visible_pass_full 100 0 issLine1 issLine2 (-18) 0 true
      (fun _ => true) (fun _ _ _ => -30) (fun _ _ _ _ => [(5, 0), (10, 2)])
      = Except.ok (some 5, some 5) ∧
    next_visible_pass_full 100 0 issLine1 issLine2 (-18) 0 true
      (fun _ => true) (fun _ _ _ => -30) (fun _ _ _ _ => [(5, 0), (10, 2)])
      ≠ Except.error ErrKind.invalidLocation := by
  have h1 : tle_line_ok issLine1 = true := by decide
  have h2 : tle_line_ok issLine2 = true := by decide
  refine ⟨by norm_num, ?_, ?_⟩
  · norm_num [next_visible_pass_full, h1, h2, next_visible_pass, passSearch,
      findSetAfter, is_visible]
  · norm_num [next_visible_pass_full, h1, h2, next_visible_pass, passSearch,
      findSetAfter, is_visible]
    intro hcontra
    exact Except.noConfusion hcontra

/-- C4 amended: the source performs no latitude/longitude range
validation at all — for every latitude and longitude whatsoever, with
well-formed elements and an available ephemeris, the computation proceeds
to propagation and the event search and returns that search's result;
there is no InvalidLocationError path. -/
theorem C4_no_location_validation (lat lon : ℚ) (l1 l2 : List Char)
    (thr now : ℚ) (illuminated : ℚ → Bool) (sunAlt : ℚ → ℚ → ℚ → ℚ)
    (findEvents : ℚ → ℚ → ℚ → ℚ → List (ℚ × ℕ))
    (h1 : tle_line_ok l1 = true) (h2 : tle_line_ok l2 = true) :
    next_visible_pass_full lat lon l1 l2 thr now true illuminated sunAlt
        findEvents =
      Except.ok (next_visible_pass illuminated (sunAlt lat lon) thr
        (findEvents lat lon now (now + searchHorizonSeconds))) := by
  unfold next_visible_pass_full
  rw [h1, h2]
  rfl

/-- C4 amended witness: latitude 200 is far outside [-90, 90], yet the
computation proceeds to the search. -/
theorem C4_no_location_validation_witness :
    next_visible_pass_full 200 0 issLine1 issLine2 (-18) 0 true
      (fun _ => true) (fun _ _ _ => -30) (fun _ _ _ _ => []) =
      Except.ok (next_visible_pass (fun _ => true) (fun _ => -30) (-18) []) :=
  C4_no_location_validation 200 0 issLine1 issLine2 (-18) 0
    (fun _ => true) (fun _ _ _ => -30) (fun _ _ _ _ => [])
    (by decide) (by decide)

/-- C6: if no Rise event of the search window satisfies the visibility
predicate, the computation returns the no-pass result — a normal
`Except.ok (none, none)`, not an error — and `main`'s reporting condition
treats it as "no visible pass found". -/
theorem C6_no_visible_rise_returns_none (lat lon : ℚ) (l1 l2 : List Char)
    (thr now : ℚ) (illuminated : ℚ → Bool) (sunAlt : ℚ → ℚ → ℚ → ℚ)
    (findEvents : ℚ → ℚ → ℚ → ℚ → List (ℚ × ℕ))
    (h1 : tle_line_ok l1 = true) (h2 : tle_line_ok l2 = true)
    (hno : ∀ p ∈ findEvents lat lon now (now + searchHorizonSeconds),
      p.2 = 0 → is_visible illuminated (sunAlt lat lon) thr p.1 = false) :
    next_visible_pass_full lat lon l1 l2 thr now true illuminated sunAlt
        findEvents = Except.ok (none, none) ∧
      reports_pass (none, none) = false := by
  refine ⟨?_, rfl⟩
  unfold next_visible_pass_full
  rw [h1, h2]
  exact congrArg Except.ok (passSearch_no_vis _ _ _ none hno)

/-- C6 witness: a window whose only Rise happens with the sun at altitude
0 (daylight) yields the normal no-pass result. -/
theorem C6_witness :
    next_visible_pass_full 51 0 issLine1 issLine2 (-18) 0 true
        (fun _ => true) (fun _ _ _ => 0) (fun _ _ _ _ => [(5, 0), (10, 2)]) =
      Except.ok (none, none) ∧
      reports_pass (none, none) = false := by
  apply C6_no_visible_rise_returns_none
  · decide
  · decide
  · intro p hp
    fin_cases hp <;> norm_num [is_visible]

/-- C7: for every malformed orbital-element input (either line failing
the structural/checksum validation), the computation fails with the parse
error MalformedElementsError before any propagation or search is
performed; it never proceeds to a propagation result. -/
theorem C7_malformed_elements_rejected (lat lon : ℚ) (l1 l2 : List Char)
    (thr now : ℚ) (ephOk : Bool) (illuminated : ℚ → Bool)
    (sunAlt : ℚ → ℚ → ℚ → ℚ)
    (findEvents : ℚ → ℚ → ℚ → ℚ → List (ℚ × ℕ))
    (h : ¬ (tle_line_ok l1 = true ∧ tle_line_ok l2 = true)) :
    next_visible_pass_full lat lon l1 l2 thr now ephOk illuminated sunAlt
      findEvents = Except.error ErrKind.malformedElements := by
  unfold next_visible_pass_full
  rw [if_neg]
  intro hb
  exact h (Bool.and_eq_true .. ▸ hb)

/-- C7 witness: a truncated first line is rejected with
MalformedElementsError. -/
theorem C7_witness :
    next_visible_pass_full 51 0 ("1 25544U".data) issLine2 (-18) 0 true
      (fun _ => true) (fun _ _ _ => -30) (fun _ _ _ _ => [(5, 0), (10, 2)]) =
      Except.error ErrKind.malformedElements :=
  C7_malformed_elements_rejected 51 0 ("1 25544U".data) issLine2 (-18) 0
    true (fun _ => true) (fun _ _ _ => -30) (fun _ _ _ _ => [(5, 0), (10, 2)])
    (by decide)

/-- C8: the computation is deterministic — two runs on identical
elements, observer, starting instant, threshold and ephemeris oracles
yield the identical result.  (All of the source's impure inputs —
`ts.now()`, the ephemeris, and the skyfield oracles — are explicit
arguments of the embedding, which is otherwise a pure function.) -/
theorem C8_deterministic (lat lat' lon lon' : ℚ) (l1 l1' l2 l2' : List Char)
    (thr thr' now now' : ℚ) (eph eph' : Bool)
    (ill ill' : ℚ → Bool) (alt alt' : ℚ → ℚ → ℚ → ℚ)
    (fe fe' : ℚ → ℚ → ℚ → ℚ → List (ℚ × ℕ))
    (hlat : lat = lat') (hlon : lon = lon') (hl1 : l1 = l1') (hl2 : l2 = l2')
    (hthr : thr = thr') (hnow : now = now') (heph : eph = eph')
    (hill : ill = ill') (halt : alt = alt') (hfe : fe = fe') :
    next_visible_pass_full lat lon l1 l2 thr now eph ill alt fe =
      next_visible_pass_full lat' lon' l1' l2' thr' now' eph' ill' alt' fe' := by
  subst hlat hlon hl1 hl2 hthr hnow heph hill halt hfe
  rfl

/-- C8 witness: two runs on the same concrete inputs agree. -/
theorem C8_witness :
    next_visible_pass_full 51 0 issLine1 issLine2 (-18) 0 true
      (fun _ => true) (fun _ _ _ => -30) (fun _ _ _ _ => [(5, 0), (10, 2)]) =
    next_visible_pass_full 51 0 issLine1 issLine2 (-18) 0 true
      (fun _ => true) (fun _ _ _ => -30) (fun _ _ _ _ => [(5, 0), (10, 2)]) :=
  C8_deterministic 51 51 0 0 issLine1 issLine1 issLine2 issLine2 (-18) (-18)
    0 0 true true (fun _ => true) (fun _ => true) (fun _ _ _ => -30)
    (fun _ _ _ => -30) (fun _ _ _ _ => [(5, 0), (10, 2)])
    (fun _ _ _ _ => [(5, 0), (10, 2)]) rfl rfl rfl rfl rfl rfl rfl rfl rfl rfl

/-- C9: a pass is only ever started at a Rise event — whenever the search
returns a rise time, that time belongs to a Rise (kind 0) event of the
window that satisfies the visibility predicate; a Set with no prior Rise
is never used as a pass start. -/
theorem C9_pass_start_only_at_rise (illuminated : ℚ → Bool)
    (sunAlt : ℚ → ℚ) (thr : ℚ) (evs : List (ℚ × ℕ)) (r : ℚ)
    (h : (next_visible_pass illuminated sunAlt thr evs).1 = some r) :
    (r, 0) ∈ evs ∧ is_visible illuminated sunAlt thr r = true := by
  rw [next_visible_pass] at h
  rcases hp : passSearch (is_visible illuminated sunAlt thr) evs evs none
    with ⟨rt, dur⟩
  rw [hp] at h
  have h2 : rt = some r := h
  rw [h2] at hp
  rcases passSearch_rise_sound _ evs evs none r dur hp with hacc | hgood
  · exact Option.noConfusion hacc
  · exact hgood

/-- C9 witness: a window starting with a Set at t = 1 (object already up)
skips it — the returned pass start is the Rise at t = 5. -/
theorem C9_witness :
    ((5:ℚ), 0) ∈ [((1:ℚ), (2:ℕ)), (5, 0), (10, 2)] ∧
      is_visible (fun _ => true) (fun _ => -30) (-18) 5 = true := by
  apply C9_pass_start_only_at_rise (fun _ => true) (fun _ => -30) (-18)
    [(1, 2), (5, 0), (10, 2)] 5
  norm_num [next_visible_pass, passSearch, findSetAfter, is_visible]

/-- C10: when the chronologically first visible Rise has no Set event
strictly after it in the window (a pass truncated at the window end), the
search falls through to src line 113 and returns a present rise time
paired with an absent duration, and `main`'s condition on line 138 then
reports "no visible pass found" rather than the partial pass. -/
theorem C10_truncated_pass_not_reported (illuminated : ℚ → Bool)
    (sunAlt : ℚ → ℚ) (thr : ℚ) (evs : List (ℚ × ℕ)) (r : ℚ)
    (hrmem : (r, 0) ∈ evs)
    (hrvis : is_visible illuminated sunAlt thr r = true)
    (hrfirst : ∀ p ∈ evs, p.2 = 0 →
      is_visible illuminated sunAlt thr p.1 = true → r ≤ p.1)
    (hnoset : ∀ p ∈ evs, p.2 = 2 → ¬ r < p.1) :
    ∃ x, next_visible_pass illuminated sunAlt thr evs = (some x, none) ∧
      reports_pass (next_visible_pass illuminated sunAlt thr evs) = false := by
  obtain ⟨x, hx⟩ := passSearch_trunc (is_visible illuminated sunAlt thr)
    evs evs none
    (by
      intro p hp h0 hv
      apply findSetAfter_none
      intro q hq hq2 hqlt
      exact hnoset q hq hq2 (lt_of_le_of_lt (hrfirst p hp h0 hv) hqlt))
    (Or.inl ⟨(r, 0), hrmem, rfl, hrvis⟩)
  refine ⟨x, hx, ?_⟩
  have hnv : next_visible_pass illuminated sunAlt thr evs = (some x, none) := hx
  rw [hnv]
  rfl

/-- C10 witness: a window holding a single visible Rise and no Set yields
a present rise time, an absent duration, and the no-pass report. -/
theorem C10_witness :
    ∃ x, next_visible_pass (fun _ => true) (fun _ => -30) (-18)
        [((5:ℚ), (0:ℕ))] = (some x, none) ∧
      reports_pass (next_visible_pass (fun _ => true) (fun _ => -30) (-18)
        [((5:ℚ), (0:ℕ))]) = false := by
  apply C10_truncated_pass_not_reported (fun _ => true) (fun _ => -30)
    (-18) [(5, 0)] 5
  · norm_num
  · norm_num [is_visible]
  · intro p hp
    fin_cases hp
    norm_num
  · intro p hp
    fin_cases hp
    norm_num

end IssNextPass
